import Mathlib
set_option autoImplicit false

/-!
Embedding of the `eurocontrol-acft-perf` scraper (one Python source file).

Pure computations (unit stripping, page-number computation, field scraping,
CSV layout) are translated directly.  HTML documents are represented by the
results of the fixed CSS selectors the program applies to them, and the
network is an explicit environment mapping requests to parsed pages, so that
the stateful pagination walk becomes explicit state passing with a ghost
request log.  Python `int` values are `Int`, the values parsed by
`float(...)` are exact rationals, and fallible Python code returns
`Except PyError`.
-/

/-- The Python exception kinds the program can raise on the modelled paths:
`IndexError` from `[...][0]` / `[...][-1]` on an empty list, `ValueError`
from `int(...)` on a non-numeric string or `max(...)` of an empty set. -/
inductive PyError where
  | indexError
  | valueError
deriving DecidableEq

deriving instance DecidableEq for Except

/-- Python `str.strip()`: remove leading and trailing whitespace. -/
def pyStrip (s : String) : String :=
  String.mk (((s.data.dropWhile Char.isWhitespace).reverse.dropWhile Char.isWhitespace).reverse)

/-- A run of decimal digits folded to a natural number. -/
def digitsVal (ds : List Char) : Nat :=
  ds.foldl (fun a c => 10 * a + (c.toNat - ('0').toNat)) 0

/-- Python `int(text)`: optionally signed run of decimal digits, surrounding
whitespace allowed; anything else raises `ValueError`. -/
def pyInt (s : String) : Except PyError Int :=
  match (pyStrip s).data with
  | '+' :: r => if r ≠ [] ∧ r.all Char.isDigit then .ok (digitsVal r) else .error .valueError
  | '-' :: r => if r ≠ [] ∧ r.all Char.isDigit then .ok (-(digitsVal r : Int)) else .error .valueError
  | r => if r ≠ [] ∧ r.all Char.isDigit then .ok (digitsVal r) else .error .valueError

/-!
### The numeric pattern

`NUMBER_PATTERN = re.compile(r"[-+]?(\d+(\.\d*)?|\.\d+)([eE][-+]?\d+)?")`

`NUMBER_PATTERN.findall` scans left to right, at each position attempting a
match of `[-+]?(\d+(\.\d*)?|\.\d+)` followed by an optional exponent;
because the pattern contains capture groups,
`findall` returns the tuple of groups for every match, and group 1 is the
mantissa `\d+(\.\d*)?|\.\d+` without the sign and without the exponent.
The scanner below implements exactly this matching (greedy runs, ordered
alternation, non-overlapping continuation after each match) and returns the
group-1 strings.
-/

/-- Match of the mantissa alternation `\d+(\.\d*)?|\.\d+` at the head of the
input: returns the captured group and the remaining input. -/
def matchMantissa : List Char → Option (List Char × List Char)
  | [] => none
  | c :: cs =>
    if c.isDigit then
      let ds := (c :: cs).takeWhile Char.isDigit
      let r := (c :: cs).dropWhile Char.isDigit
      match r with
      | r0 :: r1 =>
        if r0 = '.' then
          some (ds ++ '.' :: r1.takeWhile Char.isDigit, r1.dropWhile Char.isDigit)
        else some (ds, r)
      | [] => some (ds, [])
    else if c = '.' then
      match cs with
      | d :: _ =>
        if d.isDigit then some ('.' :: cs.takeWhile Char.isDigit, cs.dropWhile Char.isDigit)
        else none
      | [] => none
    else none

/-- Consume the optional exponent `([eE][-+]?\d+)?` at the head of the input;
if the body after `e`/`E` does not parse, nothing is consumed. -/
def matchExpOpt (cs : List Char) : List Char :=
  match cs with
  | c :: rest =>
    if c = 'e' ∨ c = 'E' then
      let body := match rest with
                  | s :: rest2 => if s = '+' ∨ s = '-' then rest2 else rest
                  | [] => []
      match body with
      | d :: _ => if d.isDigit then body.dropWhile Char.isDigit else cs
      | [] => cs
    else cs
  | [] => []

/-- Attempt a full-pattern match at the head of the input; on success return
group 1 (the mantissa) and the input remaining after the whole match. -/
def matchAt (cs : List Char) : Option (List Char × List Char) :=
  match cs with
  | c :: rest =>
    if c = '+' ∨ c = '-' then
      match matchMantissa rest with
      | some (g, r) => some (g, matchExpOpt r)
      | none => none
    else
      match matchMantissa cs with
      | some (g, r) => some (g, matchExpOpt r)
      | none => none
  | [] => none

/-- Left-to-right non-overlapping scan collecting the group-1 capture of every
match, as `re.findall` does for a pattern with capture groups. Fuelled by the
input length: each step either consumes a whole match or one character. -/
def findallAux : Nat → List Char → List (List Char)
  | 0, _ => []
  | f + 1, cs =>
    match matchAt cs with
    | some (g, r) => g :: findallAux f r
    | none =>
      match cs with
      | [] => []
      | _ :: t => findallAux f t

/-- The list `NUMBER_PATTERN.findall(value)`, restricted to the group-1 components. -/
def numberFindall (cs : List Char) : List (List Char) :=
  findallAux cs.length cs

/-- Exact value of a mantissa token `digits[.digits*]` or `.digits`, i.e. what
Python `float(...)` parses from such a token. -/
def decValue (m : List Char) : ℚ :=
  let ip := m.takeWhile (fun c => c != '.')
  let fp := (m.dropWhile (fun c => c != '.')).drop 1
  (digitsVal ip : ℚ) + (digitsVal fp : ℚ) / (10 : ℚ) ^ fp.length

/-- Function `strip_units`: find all numeric substrings and convert the first result to
a float.  With the capture groups of `NUMBER_PATTERN`, `values[0][0]` is the
mantissa capture of the first match; `values[0]` raises `IndexError` when
there is no match. -/
def strip_units (value : String) : Except PyError ℚ :=
  match numberFindall value.data with
  | [] => .error .indexError
  | g :: _ => .ok (decValue g)

/-!
Spec-side vocabulary for stating what `strip_units` extracts: the token
grammar of the numeric pattern, and the conditions making a decomposition
`pre ++ sign ++ mantissa ++ rest` the leftmost match.
-/

def headIsDigit : List Char → Bool
  | c :: _ => c.isDigit
  | [] => false

def headNotDigit : List Char → Bool
  | c :: _ => !c.isDigit
  | [] => true

def headNotDot : List Char → Bool
  | c :: _ => c != '.'
  | [] => true

/-- A nonempty run of decimal digits. -/
def isDigitStr (l : List Char) : Bool :=
  !l.isEmpty && l.all Char.isDigit

/-- The mantissa language of the pattern: `\d+(\.\d*)?|\.\d+`. -/
def isMantissaTok (m : List Char) : Bool :=
  match m with
  | [] => false
  | c :: fs =>
    if c = '.' then isDigitStr fs
    else
      let ds := (c :: fs).takeWhile Char.isDigit
      let r := (c :: fs).dropWhile Char.isDigit
      isDigitStr ds &&
        (match r with
         | [] => true
         | r0 :: gs => r0 == '.' && gs.all Char.isDigit)

/-- No earlier match can leak across the boundary: when the token carries no
explicit sign, the character just before it may not be a sign, nor - when the
mantissa starts with a digit - the dot. -/
def lastNotSignDot (l : List Char) (mHeadDigit : Bool) : Bool :=
  match l.getLast? with
  | none => true
  | some c => c != '+' && c != '-' && (!mHeadDigit || c != '.')

/-!
### Listing pages and the listing-page scraper

A parsed listing page (a `BeautifulSoup` value in the source) is represented
by the results of the fixed selectors the program applies to it: the texts of
the pager links `tr[class=ap-list-pager] a`, the texts of the pager spans
`tr[class=ap-list-pager] span`, the texts of the designator links
`tr[class^=ap-list-row] h3 a`, and the values of the three hidden ASP.NET
state inputs.
-/

structure ListingPage where
  pagerLinkTexts : List String
  pagerSpanTexts : List String
  rowLinkTexts : List String
  viewState : String
  viewStateGenerator : String
  eventValidation : String
deriving DecidableEq

/-- ASP.NET state (`PageState` dataclass). -/
structure PageState where
  view_state : String := ""
  view_state_generator : String := ""
  event_validation : String := ""
deriving DecidableEq

/-- Method `PageState.data`: the three hidden fields under their wire names. -/
def PageState.data (s : PageState) : List (String × String) :=
  [("__VIEWSTATE", s.view_state),
   ("__VIEWSTATEGENERATOR", s.view_state_generator),
   ("__EVENTVALIDATION", s.event_validation)]

/-- Method `PageState.extract`: read the three hidden inputs of a parsed page. -/
def PageState.extract (soup : ListingPage) : PageState :=
  { view_state := soup.viewState,
    view_state_generator := soup.viewStateGenerator,
    event_validation := soup.eventValidation }

/-- Postback event (`PageEvent` dataclass). -/
structure PageEvent where
  event_target : String := "ctl00$MainContent$wsBasicSearchGridView"
  event_argument : String := ""
deriving DecidableEq

/-- Constructor `PageEvent.page(i)`: request page `i` of the grid. -/
def PageEvent.page (i : Int) : PageEvent :=
  { event_argument := "Page$" ++ toString i }

/-- Method `PageEvent.data`: the event fields under their wire names. -/
def PageEvent.data (e : PageEvent) : List (String × String) :=
  [("__EVENTTARGET", e.event_target), ("__EVENTARGUMENT", e.event_argument)]

/-- Function `scrape_designators`: trimmed texts of the designator links, in document
order, not deduplicated. -/
def scrape_designators (soup : ListingPage) : List String :=
  soup.rowLinkTexts.map pyStrip

/-- Sequential embedding of the set comprehension `{int(e) for e in ts ...}`:
`ValueError` as soon as any element is not numeric, otherwise the values. -/
def intsOf : List String → Except PyError (List Int)
  | [] => .ok []
  | t :: ts =>
    match pyInt t with
    | .error e => .error e
    | .ok k => (intsOf ts).map (fun ks => k :: ks)

/-- Function `max_page_no`: maximum page number found in the document.

Line by line from the source: `ts` is the set of trimmed pager link texts
united with the trimmed pager span texts (a Python set - only membership
matters downstream, so it is a deduplicated list here); `last` is the last
trimmed pager *link* text (`IndexError` when there are no pager links);
`n` is the maximum of `int(e)` over the non-ellipsis elements of `ts`
(`ValueError` from `int` on a non-numeric label, or from `max` on an empty
set), plus one when `last` is the ellipsis. -/
def max_page_no (soup : ListingPage) : Except PyError Int :=
  let linkTexts := soup.pagerLinkTexts.map pyStrip
  let ts := (linkTexts ++ soup.pagerSpanTexts.map pyStrip).dedup
  match linkTexts.getLast? with
  | none => .error .indexError
  | some last =>
    match intsOf (ts.filter (fun t => t != "...")) with
    | .error e => .error e
    | .ok ks =>
      match ks.max? with
      | none => .error .valueError
      | some n => .ok (if last = "..." then n + 1 else n)

/-!
### Detail pages and the detail-page scraper

A parsed detail page is represented by the text lists produced by the eight
fixed selectors of `scrape_icao` (`soup.select(...)` returns a list of
elements; the source indexes it with `[0]`).
-/

structure DetailPage where
  icaoTexts : List String
  nameTexts : List String
  manufacturerTexts : List String
  wingSpanTexts : List String
  lengthTexts : List String
  heightTexts : List String
  cruiseTasTexts : List String
  cruiseCeilingTexts : List String
deriving DecidableEq

/-- The scraped record for one aircraft, with the eight fields of the output
schema (`Lenght_m` spelling preserved from the source). -/
structure DetailRecord where
  ICAO : String
  AircraftName : String
  Manufacturer : String
  WingSpan_m : ℚ
  Lenght_m : ℚ
  Height_m : ℚ
  Cruise_kt : ℚ
  CruiseCeiling_FL : Int
deriving DecidableEq

/-- Python `[...][0]`: first element or `IndexError`. -/
def headE {α : Type} : List α → Except PyError α
  | [] => .error .indexError
  | a :: _ => .ok a

/-- Function `scrape_icao`: extract the eight fields of a detail page, in source
order; dimension and speed fields go through `strip_units`, the cruise
ceiling through `int`. -/
def scrape_icao (p : DetailPage) : Except PyError DetailRecord := do
  let icao ← headE p.icaoTexts
  let name ← headE p.nameTexts
  let manu ← headE p.manufacturerTexts
  let ws ← strip_units (← headE p.wingSpanTexts)
  let ln ← strip_units (← headE p.lengthTexts)
  let ht ← strip_units (← headE p.heightTexts)
  let cr ← strip_units (← headE p.cruiseTasTexts)
  let cc ← pyInt (← headE p.cruiseCeilingTexts)
  return { ICAO := icao, AircraftName := name, Manufacturer := manu,
           WingSpan_m := ws, Lenght_m := ln, Height_m := ht,
           Cruise_kt := cr, CruiseCeiling_FL := cc }

/-!
### The network environment and the pagination walker

The network is an environment: the parsed front page, the parsed page
returned for a postback, and the raw detail page for a designator.  Requests
are logged so that trace properties (which pages were requested, with which
state) can be stated.  The `while n < max_page` loop of
`retrieve_designators` is fuelled; `none` means the fuel ran out before the
loop did.  The successive values of the `max_page` variable are logged as
well.
-/

structure Env where
  front : ListingPage
  post : PageEvent → PageState → ListingPage
  detail : String → DetailPage

/-- One logged network request (with the parsed response for page requests). -/
inductive Step where
  | front (response : ListingPage)
  | post (evt : PageEvent) (st : PageState) (response : ListingPage)
  | getDetail (icao : String)
deriving DecidableEq

/-- Function `retrieve_front`: GET the front page, parse it, extract its state. -/
def retrieve_front (env : Env) : ListingPage × PageState :=
  (env.front, PageState.extract env.front)

/-- Function `retrieve_page`: POST the event and previous state, parse the response,
extract the fresh state. -/
def retrieve_page (env : Env) (evt : PageEvent) (state : PageState) :
    ListingPage × PageState :=
  (env.post evt state, PageState.extract (env.post evt state))

/-- Function `retrieve_icao`: GET the detail page for a designator. -/
def retrieve_icao (env : Env) (icao : String) : DetailPage :=
  env.detail icao

/-- The `while n < max_page` loop of `retrieve_designators`. -/
def walkLoop (env : Env) (fuel : Nat) (n maxPage : Int) (state : PageState)
    (acc : List String) (log : List Step) (bnds : List Int) :
    Option (Except PyError (List String × List Step × List Int)) :=
  if n < maxPage then
    match fuel with
    | 0 => none
    | f + 1 =>
      let evt := PageEvent.page (n + 1)
      let (page, state') := retrieve_page env evt state
      match max_page_no page with
      | .error e => some (.error e)
      | .ok m =>
        walkLoop env f (n + 1) (max maxPage m) state'
          (acc ++ scrape_designators page)
          (log ++ [Step.post evt state page])
          (bnds ++ [max maxPage m])
  else some (.ok (acc, log, bnds))

/-- Function `retrieve_designators`: walk all listing pages, accumulating scraped
designators; returns them together with the request log and the successive
values of the running page bound. -/
def retrieve_designators (env : Env) (fuel : Nat) :
    Option (Except PyError (List String × List Step × List Int)) :=
  let (page, state) := retrieve_front env
  match max_page_no page with
  | .error e => some (.error e)
  | .ok m =>
    walkLoop env fuel 1 m state (scrape_designators page) [Step.front page] [m]

/-!
### Detail fetching and the cache-bypass scraper
-/

/-- Python dict assignment `pages[d] = v`: overwrite in place if the key is
present, append otherwise. -/
def dictInsert (k : String) (v : DetailPage) (m : List (String × DetailPage)) :
    List (String × DetailPage) :=
  if m.any (fun kv => kv.1 == k) then
    m.map (fun kv => if kv.1 == k then (k, v) else kv)
  else m ++ [(k, v)]

/-- The loop of `retrieve_details`: fetch each designator's page, store it,
scrape it, append the record. -/
def detailsLoop (env : Env) :
    List String → List DetailRecord → List (String × DetailPage) → List Step →
    Except PyError (List DetailRecord × List (String × DetailPage) × List Step)
  | [], details, pages, log => .ok (details, pages, log)
  | d :: ds, details, pages, log =>
    let page := retrieve_icao env d
    let pages' := dictInsert d page pages
    match scrape_icao page with
    | .error e => .error e
    | .ok r => detailsLoop env ds (details ++ [r]) pages' (log ++ [Step.getDetail d])

/-- Function `retrieve_details`: all details plus the raw-page mapping, with the
request log. -/
def retrieve_details (env : Env) (ds : List String) :
    Except PyError (List DetailRecord × List (String × DetailPage) × List Step) :=
  detailsLoop env ds [] [] []

/-- Function `scrape_details`: only scrape, from a raw-page mapping (a Python dict,
iterated in insertion order). -/
def scrape_details : List (String × DetailPage) → Except PyError (List DetailRecord)
  | [] => .ok []
  | (_, page) :: rest =>
    match scrape_icao page with
    | .error e => .error e
    | .ok r => (scrape_details rest).map (fun ds => r :: ds)

/-!
### CSV export
-/

/-- The fixed column order (note the preserved `Lenght_m` spelling). -/
def KEYS : List String :=
  ["ICAO", "AircraftName", "Manufacturer", "WingSpan_m", "Lenght_m",
   "Height_m", "Cruise_kt", "CruiseCeiling_FL"]

/-- A CSV cell: a string field, a float field, or an integer field. -/
inductive CsvCell where
  | s (v : String)
  | q (v : ℚ)
  | z (v : Int)
deriving DecidableEq

/-- The row `csv.DictWriter` writes for one record: the field values in
`KEYS` order. -/
def rowOf (r : DetailRecord) : List CsvCell :=
  [.s r.ICAO, .s r.AircraftName, .s r.Manufacturer, .q r.WingSpan_m,
   .q r.Lenght_m, .q r.Height_m, .q r.Cruise_kt, .z r.CruiseCeiling_FL]

/-- The CSV document: `writeheader()` then `writerows(details)`. -/
def writeCSV (records : List DetailRecord) : List (List CsvCell) :=
  KEYS.map CsvCell.s :: records.map rowOf

/-!
### main
-/

structure MainResult where
  details : List DetailRecord
  pages : List (String × DetailPage)
  requests : List Step
  cacheWritten : Bool
  csv : List (List CsvCell)
  outputPath : String
deriving DecidableEq

namespace Scraper

/-- Function `main(args)`: if a raw-cache path is configured and exists, load the
mapping and re-scrape it (no request is issued); otherwise walk the listing
pages and fetch every detail page.  Afterwards the cache is written exactly
when a path is configured and the file did not exist, and the CSV is
written. -/
def main (rawfile : Option String) (output : String)
    (fileExists : String → Bool) (load : String → List (String × DetailPage))
    (env : Env) (fuel : Nat) : Option (Except PyError MainResult) :=
  let live : Bool → Option (Except PyError MainResult) := fun cw =>
    match retrieve_designators env fuel with
    | none => none
    | some (.error e) => some (.error e)
    | some (.ok (ds, steps, _)) =>
      match retrieve_details env ds with
      | .error e => some (.error e)
      | .ok (details, pages, steps2) =>
        some (.ok { details := details, pages := pages,
                    requests := steps ++ steps2, cacheWritten := cw,
                    csv := writeCSV details, outputPath := output })
  match rawfile with
  | some p =>
    if fileExists p then
      some ((scrape_details (load p)).map (fun ds =>
        { details := ds, pages := load p, requests := [],
          cacheWritten := false, csv := writeCSV ds, outputPath := output }))
    else live true
  | none => live false

end Scraper

/-- Trivial concrete pages and environment used by the closed instances. -/
def pg0 : ListingPage :=
  { pagerLinkTexts := [], pagerSpanTexts := [], rowLinkTexts := [],
    viewState := "", viewStateGenerator := "", eventValidation := "" }

def dp0 : DetailPage :=
  { icaoTexts := ["A001"], nameTexts := ["Test Jet"], manufacturerTexts := ["Acme"],
    wingSpanTexts := ["34.1 m"], lengthTexts := ["30.0 m"], heightTexts := ["10.0 m"],
    cruiseTasTexts := ["450 kt"], cruiseCeilingTexts := ["410"] }

def env0 : Env :=
  { front := pg0, post := fun _ _ => pg0, detail := fun _ => dp0 }

/-!
### C2 - maximum page number
-/

/-- The spec's reading of §4.3: the values of the strictly-numeric pager
labels. -/
def specNumericVals (labels : List String) : List Int :=
  labels.filterMap (fun t => if t = "..." then none else (pyInt t).toOption)

instance : Std.Antisymm (fun (x1 x2 : Int) => x1 ≤ x2) :=
  ⟨fun h1 h2 => le_antisymm h1 h2⟩

/-- A pager row whose last *span* label follows the link labels: the code's
ellipsis check looks only at the last link. -/
def pagerSpanLast : ListingPage :=
  { pagerLinkTexts := ["1", "..."], pagerSpanTexts := ["5"], rowLinkTexts := [],
    viewState := "", viewStateGenerator := "", eventValidation := "" }

def pagerEllipsisLast : ListingPage :=
  { pagerLinkTexts := ["1", "2", "7", "..."], pagerSpanTexts := [],
    rowLinkTexts := [], viewState := "", viewStateGenerator := "",
    eventValidation := "" }

def pagerNoEllipsis : ListingPage :=
  { pagerLinkTexts := ["1", "2", "3"], pagerSpanTexts := [], rowLinkTexts := [],
    viewState := "", viewStateGenerator := "", eventValidation := "" }

/-- A detail page with every element present but a wingspan text that
contains no numeric substring. -/
def dpNoNumber : DetailPage :=
  { icaoTexts := ["A001"], nameTexts := ["Test Jet"], manufacturerTexts := ["Acme"],
    wingSpanTexts := ["N/A"], lengthTexts := ["30.0 m"], heightTexts := ["10.0 m"],
    cruiseTasTexts := ["450 kt"], cruiseCeilingTexts := ["410"] }

def recEg : DetailRecord :=
  { ICAO := "A001", AircraftName := "Test Jet", Manufacturer := "Acme",
    WingSpan_m := decValue ['3', '4', '.', '1'],
    Lenght_m := decValue ['3', '0', '.', '0'],
    Height_m := decValue ['1', '0', '.', '0'],
    Cruise_kt := decValue ['4', '5', '0'], CruiseCeiling_FL := 410 }

/-!
### C3 / C4 - the pagination walker
-/

/-- Designators scraped from pages `n+1, …, n+d` of a scripted page family. -/
def segFrom (pgs : Int → ListingPage) (n : Int) (d : Nat) : List String :=
  ((List.range d).map
    (fun (i : Nat) => scrape_designators (pgs (n + 1 + (i : Int))))).flatten

/-- The postback requests issued while walking from page `n` to page `n+d`:
page `n+1+i` is requested with the state extracted from page `n+i`. -/
def stepsFrom (pgs : Int → ListingPage) (n : Int) (d : Nat) : List Step :=
  (List.range d).map (fun (i : Nat) =>
    Step.post (PageEvent.page (n + 1 + (i : Int)))
      (PageState.extract (pgs (n + (i : Int)))) (pgs (n + 1 + (i : Int))))

/-- The parsed response carried by a logged step, if any. -/
def respOf : Step → Option ListingPage
  | .front p => some p
  | .post _ _ p => some p
  | .getDetail _ => none

/-- The `PageState` values used by the postbacks of a request log, in order. -/
def usedStates (l : List Step) : List PageState :=
  l.filterMap (fun s =>
    match s with
    | .post _ st _ => some st
    | _ => none)

/-- State threading: every postback in the log uses exactly the `PageState`
extracted from the immediately preceding response. -/
def Threaded (l : List Step) : Prop :=
  ∀ (i : Nat) (evt : PageEvent) (st : PageState) (page : ListingPage),
    l[i + 1]? = some (.post evt st page) →
    ∃ s, l[i]? = some s ∧ ∃ q, respOf s = some q ∧ st = PageState.extract q

/-- Concrete two-page scripted environment for the walker instances. -/
def pgW1 : ListingPage :=
  { pagerLinkTexts := ["1", "2"], pagerSpanTexts := [], rowLinkTexts := ["A1 "],
    viewState := "vs1", viewStateGenerator := "g", eventValidation := "ev1" }

def envW : Env :=
  { front := pgW1, post := fun _ _ => pgW1, detail := fun _ => dp0 }

def pgsW : Int → ListingPage := fun _ => pgW1

def bW : Int → Int := fun _ => 2

/-- Evaluation helper for `decValue`: the integer and fractional digit runs
determine the rational value. -/
theorem decValue_spec (m : List Char) (a b k : Nat)
    (h1 : digitsVal (m.takeWhile (fun c => c != '.')) = a)
    (h2 : digitsVal ((m.dropWhile (fun c => c != '.')).drop 1) = b)
    (h3 : ((m.dropWhile (fun c => c != '.')).drop 1).length = k) :
    decValue m = (a : ℚ) + (b : ℚ) / (10 : ℚ) ^ k := by
  simp only [decValue, h1, h2, h3]

example : numberFindall "34.5 kt".data = [['3', '4', '.', '5']] := by decide

example : numberFindall "-2".data = [['2']] := by decide

example : numberFindall "1.2e3 m".data = [['1', '.', '2']] := by decide

example : numberFindall ".5m".data = [['.', '5']] := by decide

example : numberFindall "x 3. y".data = [['3', '.']] := by decide

example : numberFindall "no number".data = [] := by decide

example : strip_units "no number" = .error .indexError := by decide

example : decValue ['3', '4', '.', '5'] = 69 / 2 := by
  rw [decValue_spec _ 34 5 1 (by decide) (by decide) (by decide)]; norm_num

example : pyInt " 410 " = .ok 410 := by decide

example : pyInt "410.5" = .error .valueError := by decide

example : pyInt "-7" = .ok (-7) := by decide

example : pyInt "..." = .error .valueError := by decide

example :
    max_page_no { pagerLinkTexts := ["1", "2", "3"], pagerSpanTexts := [],
                  rowLinkTexts := [], viewState := "", viewStateGenerator := "",
                  eventValidation := "" } = .ok 3 := by decide

example :
    max_page_no { pagerLinkTexts := ["1", "2", "...", "7"], pagerSpanTexts := [],
                  rowLinkTexts := [], viewState := "", viewStateGenerator := "",
                  eventValidation := "" } = .ok 7 := by decide

example :
    max_page_no { pagerLinkTexts := ["2", "7", "..."], pagerSpanTexts := ["1"],
                  rowLinkTexts := [], viewState := "", viewStateGenerator := "",
                  eventValidation := "" } = .ok 8 := by decide

/-!
### Shared helper lemmas
-/

theorem exceptBind_ok {α β : Type} (a : α) (f : α → Except PyError β) :
    (Except.ok a >>= f) = f a := rfl

theorem exceptBind_error {α β : Type} (e : PyError) (f : α → Except PyError β) :
    ((Except.error e : Except PyError α) >>= f) = .error e := rfl

theorem exceptPure_eq {α : Type} (a : α) : (pure a : Except PyError α) = .ok a := rfl

theorem headE_ok {α : Type} {l : List α} {a : α} (h : l.head? = some a) :
    headE l = .ok a := by
  cases l <;> simp_all [headE]

theorem headE_split {α : Type} (l : List α) :
    headE l = .error .indexError ∨ ∃ a, headE l = .ok a := by
  cases l <;> simp [headE]

theorem strip_units_split (s : String) :
    strip_units s = .error .indexError ∨ ∃ v, strip_units s = .ok v := by
  unfold strip_units
  cases numberFindall s.data <;> simp

/-!
### C8 - CSV layout
-/

/-- C8: the exported CSV is a header row followed by one row per record, in
sequence order, with the columns in exactly the fixed `KEYS` order including
the literal `Lenght_m` spelling. -/
theorem csv_fixed_layout :
    KEYS = ["ICAO", "AircraftName", "Manufacturer", "WingSpan_m", "Lenght_m",
            "Height_m", "Cruise_kt", "CruiseCeiling_FL"] ∧
    (∀ r : DetailRecord,
      rowOf r = [.s r.ICAO, .s r.AircraftName, .s r.Manufacturer, .q r.WingSpan_m,
                 .q r.Lenght_m, .q r.Height_m, .q r.Cruise_kt, .z r.CruiseCeiling_FL]) ∧
    ∀ records : List DetailRecord,
      (writeCSV records).length = records.length + 1 ∧
      (writeCSV records)[0]? = some (KEYS.map CsvCell.s) ∧
      ∀ i : Nat, (writeCSV records)[i + 1]? = (records[i]?).map rowOf := by
  refine ⟨rfl, fun r => rfl, fun records =>
    ⟨by simp [writeCSV], by simp [writeCSV], fun i => ?_⟩⟩
  simp [writeCSV]

/-!
### C10 - no pager links
-/

/-- C10: when the pager row contains no anchor elements, `max_page_no` fails
with an `IndexError` (from `[...][-1]`), even if numeric pager spans are
present, because the final-label ellipsis check reads only anchors. -/
theorem max_page_no_no_links (p : ListingPage) (h : p.pagerLinkTexts = []) :
    max_page_no p = .error .indexError := by
  simp [max_page_no, h]

theorem max_page_no_no_links_witness :
    max_page_no { pagerLinkTexts := [], pagerSpanTexts := ["1", "2", "3"],
                  rowLinkTexts := [], viewState := "", viewStateGenerator := "",
                  eventValidation := "" } = .error .indexError :=
  max_page_no_no_links _ rfl

/-!
### C7 - cache hit makes no network call
-/

/-- C7: when a raw-cache path is configured and the file exists, `main` issues
no request at all - its result does not even depend on the network
environment - and every record comes from re-scraping the loaded mapping. -/
theorem main_cache_no_network (rawfile : Option String) (output p : String)
    (fileExists : String → Bool) (load : String → List (String × DetailPage))
    (env : Env) (fuel : Nat)
    (h1 : rawfile = some p) (h2 : fileExists p = true) :
    Scraper.main rawfile output fileExists load env fuel =
      some ((scrape_details (load p)).map (fun ds =>
        { details := ds, pages := load p, requests := [], cacheWritten := false,
          csv := writeCSV ds, outputPath := output })) ∧
    ∀ (env' : Env) (fuel' : Nat),
      Scraper.main rawfile output fileExists load env fuel =
        Scraper.main rawfile output fileExists load env' fuel' := by
  subst h1
  refine ⟨?_, fun env' fuel' => ?_⟩ <;> simp [Scraper.main, h2]

theorem main_cache_no_network_witness :
    Scraper.main (some "raw.pkl") "out.csv" (fun _ => true)
        (fun _ => [("A001", dp0)]) env0 0 =
      some ((scrape_details [("A001", dp0)]).map (fun ds =>
        { details := ds, pages := [("A001", dp0)], requests := [],
          cacheWritten := false, csv := writeCSV ds, outputPath := "out.csv" })) ∧
    ∀ (env' : Env) (fuel' : Nat),
      Scraper.main (some "raw.pkl") "out.csv" (fun _ => true)
          (fun _ => [("A001", dp0)]) env0 0 =
        Scraper.main (some "raw.pkl") "out.csv" (fun _ => true)
          (fun _ => [("A001", dp0)]) env' fuel' :=
  main_cache_no_network (some "raw.pkl") "out.csv" "raw.pkl" (fun _ => true)
    (fun _ => [("A001", dp0)]) env0 0 rfl rfl

/-!
### C5 - the cache-bypass path and the live-fetch path agree
-/

theorem detailsLoop_eq_scrape (env : Env) :
    ∀ (t : List (String × DetailPage)) (acc : List DetailRecord)
      (pacc : List (String × DetailPage)) (log : List Step),
      (∀ kv ∈ t, env.detail kv.1 = kv.2) →
      (t.map Prod.fst).Nodup →
      (∀ kv ∈ t, pacc.any (fun x => x.1 == kv.1) = false) →
      detailsLoop env (t.map Prod.fst) acc pacc log =
        (scrape_details t).map (fun ds =>
          (acc ++ ds, pacc ++ t, log ++ (t.map Prod.fst).map Step.getDetail))
  | [], acc, pacc, log, _, _, _ => by simp [detailsLoop, scrape_details, Except.map]
  | (d, pg) :: rest, acc, pacc, log, Henv, Hnodup, Hfresh => by
    have hd : env.detail d = pg := Henv (d, pg) (List.mem_cons_self _ _)
    have hfr : pacc.any (fun x => x.1 == d) = false :=
      Hfresh (d, pg) (List.mem_cons_self _ _)
    have Hnodup' : d ∉ rest.map Prod.fst ∧ (rest.map Prod.fst).Nodup := by
      rw [List.map_cons, List.nodup_cons] at Hnodup
      exact Hnodup
    have hins : dictInsert d pg pacc = pacc ++ [(d, pg)] := by
      rw [dictInsert, if_neg]
      simp [hfr]
    cases hs : scrape_icao pg with
    | error e =>
      simp [detailsLoop, retrieve_icao, hd, hins, scrape_details, hs, Except.map]
    | ok r =>
      have IH := detailsLoop_eq_scrape env rest (acc ++ [r]) (pacc ++ [(d, pg)])
        (log ++ [Step.getDetail d])
        (fun kv hkv => Henv kv (List.mem_cons_of_mem _ hkv))
        Hnodup'.2
        (fun kv hkv => by
          have h2 := Hfresh kv (List.mem_cons_of_mem _ hkv)
          have hne : d ≠ kv.1 := fun hdk =>
            Hnodup'.1 (hdk ▸ List.mem_map_of_mem Prod.fst hkv)
          rw [List.any_append, h2]
          simp [hne])
      simp only [List.map_cons, detailsLoop, retrieve_icao, hd, hins, hs,
        scrape_details]
      rw [IH]
      cases scrape_details rest <;> simp [Except.map]

/-- C5: for a raw-page mapping, the cache-bypass path (`scrape_details`) and
the live-fetch path (`retrieve_details` against an environment serving the
same raw page for each designator) produce identical record output - and the
live path rebuilds exactly the same mapping, requesting exactly the mapping's
keys. -/
theorem details_paths_agree (m : List (String × DetailPage)) (env : Env)
    (Hnodup : (m.map Prod.fst).Nodup)
    (Henv : ∀ kv ∈ m, env.detail kv.1 = kv.2) :
    retrieve_details env (m.map Prod.fst) =
      (scrape_details m).map (fun ds =>
        (ds, m, (m.map Prod.fst).map Step.getDetail)) := by
  have h := detailsLoop_eq_scrape env m [] [] [] Henv Hnodup (fun kv _ => rfl)
  simpa [retrieve_details] using h

theorem details_paths_agree_witness :
    retrieve_details env0 ["A001"] =
      (scrape_details [("A001", dp0)]).map (fun ds =>
        (ds, [("A001", dp0)], [Step.getDetail "A001"])) := by
  have h := details_paths_agree [("A001", dp0)] env0 (by simp) (by
    intro kv hkv
    simp only [List.mem_singleton] at hkv
    subst hkv
    rfl)
  simpa using h

theorem int_max?_eq_some_iff {a : Int} {xs : List Int} :
    xs.max? = some a ↔ a ∈ xs ∧ ∀ b ∈ xs, b ≤ a :=
  List.max?_eq_some_iff (fun a => le_refl a) (fun a b => max_choice a b)
    (fun _ _ _ => max_le_iff)

theorem except_toOption_eq_some {α : Type} {e : Except PyError α} {v : α} :
    e.toOption = some v ↔ e = .ok v := by
  cases e <;> simp [Except.toOption]

theorem intsOf_ok_iff (l : List String)
    (H : ∀ t ∈ l, ∃ k : Int, pyInt t = .ok k) :
    ∃ ks, intsOf l = .ok ks ∧ ∀ v : Int, v ∈ ks ↔ ∃ t ∈ l, pyInt t = .ok v := by
  induction l with
  | nil => exact ⟨[], rfl, by simp⟩
  | cons t ts ih =>
    obtain ⟨k, hk⟩ := H t (List.mem_cons_self _ _)
    obtain ⟨ks, hks, hmem⟩ := ih (fun u hu => H u (List.mem_cons_of_mem _ hu))
    refine ⟨k :: ks, ?_, ?_⟩
    · simp [intsOf, hk, hks, Except.map]
    · intro v
      constructor
      · intro hv
        rcases List.mem_cons.mp hv with h | h
        · exact ⟨t, List.mem_cons_self _ _, h ▸ hk⟩
        · obtain ⟨u, hu, huv⟩ := (hmem v).mp h
          exact ⟨u, List.mem_cons_of_mem _ hu, huv⟩
      · rintro ⟨u, hu, huv⟩
        rcases List.mem_cons.mp hu with h | h
        · subst h
          rw [hk] at huv
          simp at huv
          simp [huv]
        · exact List.mem_cons_of_mem _ ((hmem v).mpr ⟨u, h, huv⟩)

/-- C2 (amended): when the pager row has at least one link and every
collected label is either the ellipsis token or strictly numeric, the
computed page number is the maximum of the numeric label values, plus one
exactly when the last pager *link* label (spans are not consulted by the
ellipsis check) is the ellipsis token. -/
theorem max_page_no_spec (p : ListingPage) (n : Int)
    (Hlinks : p.pagerLinkTexts ≠ [])
    (Hok : ∀ t ∈ (p.pagerLinkTexts ++ p.pagerSpanTexts).map pyStrip,
      t = "..." ∨ (pyInt t).toOption ≠ none)
    (Hmax : (specNumericVals
      ((p.pagerLinkTexts ++ p.pagerSpanTexts).map pyStrip)).max? = some n) :
    max_page_no p =
      .ok (if (p.pagerLinkTexts.map pyStrip).getLast? = some "..."
           then n + 1 else n) := by
  set L := (p.pagerLinkTexts ++ p.pagerSpanTexts).map pyStrip with hL
  obtain ⟨last, hlast⟩ : ∃ last, (p.pagerLinkTexts.map pyStrip).getLast? = some last := by
    cases hq : (p.pagerLinkTexts.map pyStrip).getLast? with
    | none =>
      rw [List.getLast?_eq_none_iff] at hq
      exact absurd (List.map_eq_nil_iff.mp hq) Hlinks
    | some x => exact ⟨x, rfl⟩
  have hdedup : (p.pagerLinkTexts.map pyStrip ++ p.pagerSpanTexts.map pyStrip) = L := by
    rw [hL, List.map_append]
  set F := ((L.dedup).filter (fun t => t != "...")) with hF
  have hFmem : ∀ t, t ∈ F ↔ t ∈ L ∧ t ≠ "..." := by
    intro t
    rw [hF, List.mem_filter, List.mem_dedup, bne_iff_ne]
  have HokF : ∀ t ∈ F, ∃ k : Int, pyInt t = .ok k := by
    intro t ht
    obtain ⟨htL, htne⟩ := (hFmem t).mp ht
    rcases Hok t htL with h | h
    · exact absurd h htne
    · obtain ⟨k, hk⟩ := Option.ne_none_iff_exists'.mp h
      exact ⟨k, except_toOption_eq_some.mp hk⟩
  obtain ⟨ks, hks, hksmem⟩ := intsOf_ok_iff F HokF
  have hspec : ∀ v : Int, v ∈ ks ↔ v ∈ specNumericVals L := by
    intro v
    rw [hksmem v, specNumericVals]
    constructor
    · rintro ⟨t, ht, htv⟩
      obtain ⟨htL, htne⟩ := (hFmem t).mp ht
      exact List.mem_filterMap.mpr ⟨t, htL, by
        rw [if_neg htne, except_toOption_eq_some]
        exact htv⟩
    · intro hv
      obtain ⟨t, htL, htv⟩ := List.mem_filterMap.mp hv
      by_cases hne : t = "..."
      · rw [if_pos hne] at htv
        exact absurd htv (by simp)
      · rw [if_neg hne, except_toOption_eq_some] at htv
        exact ⟨t, (hFmem t).mpr ⟨htL, hne⟩, htv⟩
  have hmax' : ks.max? = some n := by
    obtain ⟨hn, hub⟩ := int_max?_eq_some_iff.mp Hmax
    exact int_max?_eq_some_iff.mpr
      ⟨(hspec n).mpr hn, fun b hb => hub b ((hspec b).mp hb)⟩
  rw [max_page_no]
  simp only [hdedup, hlast, hks, hmax']
  simp

/-- C2 counterexample: labels collected in code order are
`["1", "...", "5"]`, so the last label encountered is `"5"`, not the
ellipsis; the claim then demands `max = 5`, but `max_page_no` returns `6`
because the last pager *link* is the ellipsis. -/
theorem max_page_no_span_after_links :
    max_page_no pagerSpanLast = .ok 6 ∧ (6 : Int) ≠ 5 := by
  constructor
  · decide
  · decide

theorem max_page_no_spec_witness :
    max_page_no pagerEllipsisLast = .ok 8 ∧ max_page_no pagerNoEllipsis = .ok 3 := by
  constructor
  · have h := max_page_no_spec pagerEllipsisLast 7 (by decide) (by decide) (by decide)
    rw [if_pos (by decide)] at h
    exact h
  · have h := max_page_no_spec pagerNoEllipsis 3 (by decide) (by decide) (by decide)
    rw [if_neg (by decide)] at h
    exact h

/-!
### C6 - the detail-page scraper's field contract
-/

/-- C6 (amended): when every expected element is present *and* its text
parses (the dimension and speed texts contain a numeric substring, the
ceiling text is an integer literal), `scrape_icao` returns exactly the
eight-field record, with the dimension and speed fields passed through
`strip_units` and the ceiling through `int`; and whenever any expected
element is absent, `scrape_icao` propagates an `IndexError`, producing no
partial record. -/
theorem scrape_icao_contract :
    (∀ (p : DetailPage) (tI tA tM tW tL tH tC tF : String) (wv lv hv cv : ℚ)
       (fv : Int),
      p.icaoTexts.head? = some tI → p.nameTexts.head? = some tA →
      p.manufacturerTexts.head? = some tM → p.wingSpanTexts.head? = some tW →
      p.lengthTexts.head? = some tL → p.heightTexts.head? = some tH →
      p.cruiseTasTexts.head? = some tC → p.cruiseCeilingTexts.head? = some tF →
      strip_units tW = .ok wv → strip_units tL = .ok lv →
      strip_units tH = .ok hv → strip_units tC = .ok cv → pyInt tF = .ok fv →
      scrape_icao p = .ok { ICAO := tI, AircraftName := tA, Manufacturer := tM,
                            WingSpan_m := wv, Lenght_m := lv, Height_m := hv,
                            Cruise_kt := cv, CruiseCeiling_FL := fv }) ∧
    (∀ p : DetailPage,
      p.icaoTexts = [] ∨ p.nameTexts = [] ∨ p.manufacturerTexts = [] ∨
      p.wingSpanTexts = [] ∨ p.lengthTexts = [] ∨ p.heightTexts = [] ∨
      p.cruiseTasTexts = [] ∨ p.cruiseCeilingTexts = [] →
      scrape_icao p = .error .indexError) := by
  constructor
  · intro p tI tA tM tW tL tH tC tF wv lv hv cv fv hI hA hM hW hL hH hC hF
      hwv hlv hhv hcv hfv
    simp [scrape_icao, headE_ok hI, headE_ok hA, headE_ok hM, headE_ok hW,
      headE_ok hL, headE_ok hH, headE_ok hC, headE_ok hF, hwv, hlv, hhv, hcv,
      hfv, exceptBind_ok, exceptPure_eq]
  · intro p hemp
    have contra : ∀ {l : List String} {a : String},
        l = [] → headE l = .ok a → False := by
      intro l a hl ha
      subst hl
      simp [headE] at ha
    rcases headE_split p.icaoTexts with h1 | ⟨a1, h1⟩
    · simp [scrape_icao, h1, exceptBind_error]
    rcases headE_split p.nameTexts with h2 | ⟨a2, h2⟩
    · simp [scrape_icao, h1, h2, exceptBind_ok, exceptBind_error]
    rcases headE_split p.manufacturerTexts with h3 | ⟨a3, h3⟩
    · simp [scrape_icao, h1, h2, h3, exceptBind_ok, exceptBind_error]
    rcases headE_split p.wingSpanTexts with h4 | ⟨a4, h4⟩
    · simp [scrape_icao, h1, h2, h3, h4, exceptBind_ok, exceptBind_error]
    rcases strip_units_split a4 with h4' | ⟨v4, h4'⟩
    · simp [scrape_icao, h1, h2, h3, h4, h4', exceptBind_ok, exceptBind_error]
    rcases headE_split p.lengthTexts with h5 | ⟨a5, h5⟩
    · simp [scrape_icao, h1, h2, h3, h4, h4', h5, exceptBind_ok, exceptBind_error]
    rcases strip_units_split a5 with h5' | ⟨v5, h5'⟩
    · simp [scrape_icao, h1, h2, h3, h4, h4', h5, h5', exceptBind_ok,
        exceptBind_error]
    rcases headE_split p.heightTexts with h6 | ⟨a6, h6⟩
    · simp [scrape_icao, h1, h2, h3, h4, h4', h5, h5', h6, exceptBind_ok,
        exceptBind_error]
    rcases strip_units_split a6 with h6' | ⟨v6, h6'⟩
    · simp [scrape_icao, h1, h2, h3, h4, h4', h5, h5', h6, h6', exceptBind_ok,
        exceptBind_error]
    rcases headE_split p.cruiseTasTexts with h7 | ⟨a7, h7⟩
    · simp [scrape_icao, h1, h2, h3, h4, h4', h5, h5', h6, h6', h7,
        exceptBind_ok, exceptBind_error]
    rcases strip_units_split a7 with h7' | ⟨v7, h7'⟩
    · simp [scrape_icao, h1, h2, h3, h4, h4', h5, h5', h6, h6', h7, h7',
        exceptBind_ok, exceptBind_error]
    rcases headE_split p.cruiseCeilingTexts with h8 | ⟨a8, h8⟩
    · simp [scrape_icao, h1, h2, h3, h4, h4', h5, h5', h6, h6', h7, h7', h8,
        exceptBind_ok, exceptBind_error]
    exfalso
    rcases hemp with h | h | h | h | h | h | h | h
    · exact contra h h1
    · exact contra h h2
    · exact contra h h3
    · exact contra h h4
    · exact contra h h5
    · exact contra h h6
    · exact contra h h7
    · exact contra h h8

/-- C6 counterexample: all eight expected elements are present, yet
`scrape_icao` fails (the wingspan text has no numeric substring), so element
presence alone does not yield a record. -/
theorem scrape_icao_presence_insufficient :
    dpNoNumber.icaoTexts ≠ [] ∧ dpNoNumber.nameTexts ≠ [] ∧
    dpNoNumber.manufacturerTexts ≠ [] ∧ dpNoNumber.wingSpanTexts ≠ [] ∧
    dpNoNumber.lengthTexts ≠ [] ∧ dpNoNumber.heightTexts ≠ [] ∧
    dpNoNumber.cruiseTasTexts ≠ [] ∧ dpNoNumber.cruiseCeilingTexts ≠ [] ∧
    scrape_icao dpNoNumber = .error .indexError := by
  refine ⟨by decide, by decide, by decide, by decide, by decide, by decide,
    by decide, by decide, ?_⟩
  decide

theorem scrape_icao_contract_witness :
    scrape_icao dp0 = .ok recEg ∧
    scrape_icao { dp0 with icaoTexts := [] } = .error .indexError := by
  constructor
  · exact scrape_icao_contract.1 dp0 "A001" "Test Jet" "Acme" "34.1 m" "30.0 m"
      "10.0 m" "450 kt" "410" (decValue ['3', '4', '.', '1'])
      (decValue ['3', '0', '.', '0']) (decValue ['1', '0', '.', '0'])
      (decValue ['4', '5', '0']) 410 rfl rfl rfl rfl rfl rfl rfl rfl rfl rfl
      rfl rfl (by decide)
  · exact scrape_icao_contract.2 _ (Or.inl rfl)

/-!
### C9 - no numeric substring means an IndexError
-/

theorem matchMantissa_none {l : List Char}
    (h0 : ∀ c, l.head? = some c → c.isDigit = false)
    (h1 : ∀ c, l.head? = some '.' → l.tail.head? = some c → c.isDigit = false) :
    matchMantissa l = none := by
  cases l with
  | nil => rfl
  | cons c t =>
    have hc : c.isDigit = false := h0 c rfl
    by_cases hdot : c = '.'
    · subst hdot
      cases t with
      | nil => simp [matchMantissa, hc]
      | cons d t' =>
        have hd : d.isDigit = false := h1 d rfl rfl
        simp [matchMantissa, hc, hd]
    · simp [matchMantissa, hc, hdot]

theorem matchAt_none_of_nodigit {cs : List Char}
    (h : ∀ c ∈ cs, c.isDigit = false) : matchAt cs = none := by
  cases cs with
  | nil => rfl
  | cons c t =>
    have ht : ∀ x ∈ t, x.isDigit = false := fun x hx => h x (List.mem_cons_of_mem _ hx)
    have hmt : matchMantissa t = none := by
      apply matchMantissa_none
      · intro x hx
        cases t with
        | nil => simp at hx
        | cons y t' =>
          simp at hx
          exact hx ▸ ht y (List.mem_cons_self _ _)
      · intro x _ hx
        cases t with
        | nil => simp at hx
        | cons y t' =>
          cases t' with
          | nil => simp at hx
          | cons z t'' =>
            simp at hx
            exact hx ▸ ht z (by simp)
    have hmc : matchMantissa (c :: t) = none := by
      apply matchMantissa_none
      · intro x hx
        simp at hx
        exact hx ▸ h c (List.mem_cons_self _ _)
      · intro x hdot hx
        cases t with
        | nil => simp at hx
        | cons y t' =>
          simp at hx
          exact hx ▸ ht y (List.mem_cons_self _ _)
    rw [matchAt]
    by_cases hsgn : c = '+' ∨ c = '-'
    · rw [if_pos hsgn, hmt]
    · rw [if_neg hsgn, hmc]

theorem findallAux_nil_of_nodigit :
    ∀ (f : Nat) (cs : List Char), (∀ c ∈ cs, c.isDigit = false) →
      findallAux f cs = []
  | 0, _, _ => rfl
  | f + 1, cs, h => by
    have hm := matchAt_none_of_nodigit h
    cases cs with
    | nil => simp [findallAux, hm]
    | cons c t =>
      simp only [findallAux, hm]
      exact findallAux_nil_of_nodigit f t
        (fun x hx => h x (List.mem_cons_of_mem _ hx))

/-- C9: on input containing no numeric substring (equivalently, no decimal
digit, since every match of the numeric pattern contains a digit and a lone
digit already matches it), `strip_units` propagates an `IndexError` from
`values[0]` instead of returning a default. -/
theorem strip_units_no_numeric (s : String)
    (h : ∀ c ∈ s.data, c.isDigit = false) :
    strip_units s = .error .indexError := by
  rw [strip_units, numberFindall, findallAux_nil_of_nodigit _ _ h]

theorem strip_units_no_numeric_witness :
    strip_units "no number here!" = .error .indexError :=
  strip_units_no_numeric "no number here!" (by decide)

/-!
### C1 - what `strip_units` returns for the first numeric substring
-/

theorem takeWhile_append_all {α : Type} {p : α → Bool} {l : List α} (t : List α)
    (h : ∀ c ∈ l, p c = true) : (l ++ t).takeWhile p = l ++ t.takeWhile p := by
  induction l with
  | nil => rfl
  | cons a l ih =>
    have ha := h a (List.mem_cons_self _ _)
    simp [List.takeWhile_cons, ha,
      ih (fun c hc => h c (List.mem_cons_of_mem _ hc))]

theorem dropWhile_append_all {α : Type} {p : α → Bool} {l : List α} (t : List α)
    (h : ∀ c ∈ l, p c = true) : (l ++ t).dropWhile p = t.dropWhile p := by
  induction l with
  | nil => rfl
  | cons a l ih =>
    have ha := h a (List.mem_cons_self _ _)
    simp [List.dropWhile_cons, ha,
      ih (fun c hc => h c (List.mem_cons_of_mem _ hc))]

theorem takeWhile_eq_nil_head {α : Type} {p : α → Bool} {t : List α}
    (h : ∀ c, t.head? = some c → p c = false) : t.takeWhile p = [] := by
  cases t with
  | nil => rfl
  | cons a t => simp [List.takeWhile_cons, h a rfl]

theorem dropWhile_eq_self_head {α : Type} {p : α → Bool} {t : List α}
    (h : ∀ c, t.head? = some c → p c = false) : t.dropWhile p = t := by
  cases t with
  | nil => rfl
  | cons a t => simp [List.dropWhile_cons, h a rfl]

theorem takeWhile_all_self {α : Type} {p : α → Bool} {l : List α}
    (h : ∀ c ∈ l, p c = true) : l.takeWhile p = l := by
  have h2 : (l ++ []).takeWhile p = l ++ ([] : List α).takeWhile p :=
    takeWhile_append_all [] h
  simpa using h2

theorem dropWhile_all_nil {α : Type} {p : α → Bool} {l : List α}
    (h : ∀ c ∈ l, p c = true) : l.dropWhile p = [] := by
  have h2 : (l ++ []).dropWhile p = ([] : List α).dropWhile p :=
    dropWhile_append_all [] h
  simpa using h2

/-- Manual unfolding equation for `matchMantissa` at a cons cell. -/
theorem matchMantissa_cons (c : Char) (cs : List Char) :
    matchMantissa (c :: cs) =
      if c.isDigit then
        match (c :: cs).dropWhile Char.isDigit with
        | r0 :: r1 =>
          if r0 = '.' then
            some ((c :: cs).takeWhile Char.isDigit ++
              '.' :: r1.takeWhile Char.isDigit, r1.dropWhile Char.isDigit)
          else some ((c :: cs).takeWhile Char.isDigit,
            (c :: cs).dropWhile Char.isDigit)
        | [] => some ((c :: cs).takeWhile Char.isDigit, [])
      else if c = '.' then
        match cs with
        | d :: _ =>
          if d.isDigit then
            some ('.' :: cs.takeWhile Char.isDigit, cs.dropWhile Char.isDigit)
          else none
        | [] => none
      else none := rfl

theorem mantissaTok_ne_nil {m : List Char} (h : isMantissaTok m = true) :
    m ≠ [] := by
  intro he
  subst he
  simp [isMantissaTok] at h

theorem mantissaTok_shape {m : List Char} (h : isMantissaTok m = true) :
    (∃ ds, ds ≠ [] ∧ (∀ c ∈ ds, c.isDigit = true) ∧ m = ds) ∨
    (∃ ds fs, ds ≠ [] ∧ (∀ c ∈ ds, c.isDigit = true) ∧
      (∀ c ∈ fs, c.isDigit = true) ∧ m = ds ++ '.' :: fs) ∨
    (∃ fs, fs ≠ [] ∧ (∀ c ∈ fs, c.isDigit = true) ∧ m = '.' :: fs) := by
  cases m with
  | nil => simp [isMantissaTok] at h
  | cons c cs =>
    by_cases hc : c = '.'
    · subst hc
      rw [isMantissaTok, if_pos rfl, isDigitStr, Bool.and_eq_true] at h
      obtain ⟨h1, h2⟩ := h
      refine Or.inr (Or.inr ⟨cs, ?_, ?_, rfl⟩)
      · simpa using h1
      · simpa using h2
    · rw [isMantissaTok, if_neg hc, Bool.and_eq_true] at h
      obtain ⟨h1, h2⟩ := h
      rw [isDigitStr, Bool.and_eq_true] at h1
      obtain ⟨h1a, h1b⟩ := h1
      have hsplit : (c :: cs).takeWhile Char.isDigit ++
          (c :: cs).dropWhile Char.isDigit = c :: cs :=
        List.takeWhile_append_dropWhile Char.isDigit (c :: cs)
      cases hr : (c :: cs).dropWhile Char.isDigit with
      | nil =>
        refine Or.inl ⟨(c :: cs).takeWhile Char.isDigit, ?_, ?_, ?_⟩
        · simpa using h1a
        · intro x hx
          exact List.mem_takeWhile_imp hx
        · rw [hr, List.append_nil] at hsplit
          exact hsplit.symm
      | cons r0 gs =>
        rw [hr] at h2
        rw [Bool.and_eq_true, beq_iff_eq] at h2
        obtain ⟨hr0, hgs⟩ := h2
        refine Or.inr (Or.inl ⟨(c :: cs).takeWhile Char.isDigit, gs, ?_, ?_, ?_, ?_⟩)
        · simpa using h1a
        · intro x hx
          exact List.mem_takeWhile_imp hx
        · simpa using hgs
        · rw [hr, hr0] at hsplit
          exact hsplit.symm

theorem mantissaTok_head {m : List Char} (h : isMantissaTok m = true) :
    ∃ c0 m', m = c0 :: m' ∧ (c0.isDigit = true ∨ c0 = '.') := by
  rcases mantissaTok_shape h with ⟨ds, hne, hall, rfl⟩ |
    ⟨ds, fs, hne, hall, _, rfl⟩ | ⟨fs, _, _, rfl⟩
  · obtain ⟨d, ds', rfl⟩ := List.exists_cons_of_ne_nil hne
    exact ⟨d, ds', rfl, Or.inl (hall d (List.mem_cons_self _ _))⟩
  · obtain ⟨d, ds', rfl⟩ := List.exists_cons_of_ne_nil hne
    exact ⟨d, ds' ++ '.' :: fs, by simp, Or.inl (hall d (List.mem_cons_self _ _))⟩
  · exact ⟨'.', fs, rfl, Or.inr rfl⟩

theorem matchMantissa_exact {m suf : List Char}
    (Hm : isMantissaTok m = true)
    (Hsuf1 : headNotDigit suf = true)
    (Hsuf2 : '.' ∈ m ∨ headNotDot suf = true) :
    matchMantissa (m ++ suf) = some (m, suf) := by
  have hsufHead : ∀ c, suf.head? = some c → c.isDigit = false := by
    intro c hcs
    cases suf with
    | nil => simp at hcs
    | cons s0 t =>
      simp only [List.head?_cons, Option.some.injEq] at hcs
      subst hcs
      simpa [headNotDigit] using Hsuf1
  have hsufTake : suf.takeWhile Char.isDigit = [] := takeWhile_eq_nil_head hsufHead
  have hsufDrop : suf.dropWhile Char.isDigit = suf := dropWhile_eq_self_head hsufHead
  rcases mantissaTok_shape Hm with ⟨ds, hne, hall, rfl⟩ |
    ⟨ds, fs, hne, hallds, hallfs, rfl⟩ | ⟨fs, hne, hall, rfl⟩
  · -- m = ds, digits only
    have hnodot : ∀ c, headNotDot suf = true → suf.head? = some c → c ≠ '.' := by
      intro c hnd hcs
      cases suf with
      | nil => simp at hcs
      | cons s0 t =>
        simp only [List.head?_cons, Option.some.injEq] at hcs
        subst hcs
        simpa [headNotDot] using hnd
    have hnd : headNotDot suf = true := by
      rcases Hsuf2 with hdot | hnd
      · exfalso
        have := hall '.' hdot
        exact absurd this (by decide)
      · exact hnd
    obtain ⟨d, ds', rfl⟩ := List.exists_cons_of_ne_nil hne
    have hd : d.isDigit = true := hall d (List.mem_cons_self _ _)
    have htake : ((d :: ds') ++ suf).takeWhile Char.isDigit = d :: ds' := by
      rw [takeWhile_append_all suf hall, hsufTake, List.append_nil]
    have hdrop : ((d :: ds') ++ suf).dropWhile Char.isDigit = suf := by
      rw [dropWhile_append_all suf hall, hsufDrop]
    rw [List.cons_append] at htake hdrop
    have htail : ∀ c ∈ ds', c.isDigit = true :=
      fun c hc => hall c (List.mem_cons_of_mem _ hc)
    cases suf with
    | nil =>
      simp [matchMantissa_cons, hd, takeWhile_all_self htail,
        dropWhile_all_nil htail]
    | cons s0 t =>
      have hs0 : s0 ≠ '.' := hnodot s0 hnd rfl
      simp [matchMantissa_cons, hd, htake, hdrop, hs0]
  · -- m = ds ++ '.' :: fs
    obtain ⟨d, ds', rfl⟩ := List.exists_cons_of_ne_nil hne
    have hd : d.isDigit = true := hallds d (List.mem_cons_self _ _)
    have hassoc :
        ((d :: ds') ++ '.' :: fs) ++ suf = (d :: ds') ++ ('.' :: (fs ++ suf)) := by
      simp
    have hdotHead : ∀ c, ('.' :: (fs ++ suf)).head? = some c → c.isDigit = false := by
      intro c hcs
      simp only [List.head?_cons, Option.some.injEq] at hcs
      subst hcs
      decide
    have htake : ((d :: ds') ++ ('.' :: (fs ++ suf))).takeWhile Char.isDigit
        = d :: ds' := by
      rw [takeWhile_append_all _ hallds, takeWhile_eq_nil_head hdotHead,
        List.append_nil]
    have hdrop : ((d :: ds') ++ ('.' :: (fs ++ suf))).dropWhile Char.isDigit
        = '.' :: (fs ++ suf) := by
      rw [dropWhile_append_all _ hallds, dropWhile_eq_self_head hdotHead]
    have htake2 : (fs ++ suf).takeWhile Char.isDigit = fs := by
      rw [takeWhile_append_all suf hallfs, hsufTake, List.append_nil]
    have hdrop2 : (fs ++ suf).dropWhile Char.isDigit = suf := by
      rw [dropWhile_append_all suf hallfs, hsufDrop]
    rw [hassoc]
    rw [List.cons_append] at htake hdrop
    simp [matchMantissa_cons, hd, htake, hdrop, htake2, hdrop2]
  · -- m = '.' :: fs
    obtain ⟨f0, fs', rfl⟩ := List.exists_cons_of_ne_nil hne
    have hf0 : f0.isDigit = true := hall f0 (List.mem_cons_self _ _)
    have htake : ((f0 :: fs') ++ suf).takeWhile Char.isDigit = f0 :: fs' := by
      rw [takeWhile_append_all suf hall, hsufTake, List.append_nil]
    have hdrop : ((f0 :: fs') ++ suf).dropWhile Char.isDigit = suf := by
      rw [dropWhile_append_all suf hall, hsufDrop]
    have hdotdig : ('.').isDigit = false := by decide
    rw [List.cons_append] at htake hdrop
    simp [matchMantissa_cons, hdotdig, hf0, htake, hdrop]

/-- Manual unfolding equation for `matchAt` at a cons cell. -/
theorem matchAt_cons (c : Char) (rest : List Char) :
    matchAt (c :: rest) =
      if c = '+' ∨ c = '-' then
        match matchMantissa rest with
        | some (g, r) => some (g, matchExpOpt r)
        | none => none
      else
        match matchMantissa (c :: rest) with
        | some (g, r) => some (g, matchExpOpt r)
        | none => none := rfl

theorem matchAt_exact {sgn m suf : List Char}
    (Hsgn : sgn = [] ∨ sgn = ['+'] ∨ sgn = ['-'])
    (Hm : isMantissaTok m = true)
    (Hsuf1 : headNotDigit suf = true)
    (Hsuf2 : '.' ∈ m ∨ headNotDot suf = true) :
    matchAt (sgn ++ (m ++ suf)) = some (m, matchExpOpt suf) := by
  have hmm := matchMantissa_exact Hm Hsuf1 Hsuf2
  rcases Hsgn with rfl | rfl | rfl
  · rw [List.nil_append]
    obtain ⟨c0, m', hm0, hc0⟩ := mantissaTok_head Hm
    have hns : ¬(c0 = '+' ∨ c0 = '-') := by
      rcases hc0 with hdig | hdot
      · rintro (rfl | rfl) <;> exact absurd hdig (by decide)
      · subst hdot
        rintro (h | h) <;> exact absurd h (by decide)
    subst hm0
    rw [List.cons_append] at hmm ⊢
    simp [matchAt_cons, hns, hmm]
  · rw [List.singleton_append]
    simp [matchAt_cons, hmm]
  · rw [List.singleton_append]
    simp [matchAt_cons, hmm]

theorem findallAux_skip (rest : List Char) :
    ∀ (pre : List Char),
      (∀ c ∈ pre, c.isDigit = false) →
      ((pre.getLast? = some '+' ∨ pre.getLast? = some '-') →
        matchMantissa rest = none) →
      (pre.getLast? = some '.' → headNotDigit rest = true) →
      ∀ f : Nat, findallAux (pre.length + f) (pre ++ rest) = findallAux f rest
  | [], _, _, _, f => by simp
  | c :: pre', Hpre, Hb1, Hb2, f => by
    have hc : c.isDigit = false := Hpre c (List.mem_cons_self _ _)
    have Hpre' : ∀ x ∈ pre', x.isDigit = false :=
      fun x hx => Hpre x (List.mem_cons_of_mem _ hx)
    have hrestHead : (pre'.getLast? = some '.' ∨ (pre' = [] ∧ c = '.')) →
        ∀ x, rest.head? = some x → x.isDigit = false := by
      intro hcase x hx
      have hnd : headNotDigit rest = true := by
        rcases hcase with hl | ⟨hpe, rfl⟩
        · refine Hb2 ?_
          cases pre' with
          | nil => simp at hl
          | cons a t =>
            rw [List.getLast?_cons_cons]
            exact hl
        · subst hpe
          exact Hb2 rfl
      cases rest with
      | nil => simp at hx
      | cons r0 t =>
        simp only [List.head?_cons, Option.some.injEq] at hx
        subst hx
        simpa [headNotDigit] using hnd
    have hma : matchAt (c :: (pre' ++ rest)) = none := by
      by_cases hsgn : c = '+' ∨ c = '-'
      · have hmm : matchMantissa (pre' ++ rest) = none := by
          cases pre' with
          | nil =>
            rw [List.nil_append]
            refine Hb1 ?_
            rcases hsgn with rfl | rfl
            · exact Or.inl (by simp)
            · exact Or.inr (by simp)
          | cons p0 pre'' =>
            apply matchMantissa_none
            · intro x hx
              simp only [List.cons_append, List.head?_cons, Option.some.injEq] at hx
              subst hx
              exact Hpre' p0 (List.mem_cons_self _ _)
            · intro x hdot hx
              simp only [List.cons_append, List.head?_cons, Option.some.injEq] at hdot
              cases pre'' with
              | nil =>
                simp only [List.cons_append, List.tail_cons, List.nil_append] at hx
                exact hrestHead (Or.inl (by simp [hdot])) x hx
              | cons p1 pre''' =>
                simp only [List.cons_append, List.tail_cons, List.head?_cons,
                  Option.some.injEq] at hx
                subst hx
                exact Hpre' p1 (by simp)
        simp [matchAt_cons, hsgn, hmm]
      · have hmm : matchMantissa (c :: (pre' ++ rest)) = none := by
          apply matchMantissa_none
          · intro x hx
            simp only [List.head?_cons, Option.some.injEq] at hx
            subst hx
            exact hc
          · intro x hdot hx
            simp only [List.head?_cons, Option.some.injEq] at hdot
            simp only [List.tail_cons] at hx
            cases pre' with
            | nil =>
              simp only [List.nil_append] at hx
              exact hrestHead (Or.inr ⟨rfl, hdot⟩) x hx
            | cons p0 pre'' =>
              simp only [List.cons_append, List.head?_cons, Option.some.injEq] at hx
              subst hx
              exact Hpre' p0 (List.mem_cons_self _ _)
        simp [matchAt_cons, hsgn, hmm]
    have IH := findallAux_skip rest pre' Hpre'
      (fun h => Hb1 (by
        cases pre' with
        | nil => simp at h
        | cons a t =>
          rcases h with h | h
          · exact Or.inl (by rw [List.getLast?_cons_cons]; exact h)
          · exact Or.inr (by rw [List.getLast?_cons_cons]; exact h)))
      (fun h => Hb2 (by
        cases pre' with
        | nil => simp at h
        | cons a t =>
          rw [List.getLast?_cons_cons]
          exact h))
      f
    show findallAux ((c :: pre').length + f) ((c :: pre') ++ rest) = findallAux f rest
    rw [List.length_cons, List.cons_append]
    have harith : pre'.length + 1 + f = (pre'.length + f) + 1 := by omega
    rw [harith]
    simp only [findallAux, hma]
    exact IH

theorem findallAux_head {cs g r : List Char} (h : matchAt cs = some (g, r))
    (f : Nat) : findallAux (f + 1) cs = g :: findallAux f r := by
  simp [findallAux, h]

/-- C1 (amended): when the input decomposes as `pre ++ sign ++ mantissa ++
rest` with `pre` digit-free and not ending so as to merge with the token,
`mantissa` a token of `\d+(\.\d*)?|\.\d+`, and `rest` not extending the
mantissa, `strip_units` returns the value of the *mantissa* alone: the sign
and any exponent in `rest` are dropped, because `re.findall` on a pattern
with capture groups yields group tuples and the code converts element 0
(group 1, the unsigned mantissa). -/
theorem strip_units_first_numeric (pre sgn m suf : List Char)
    (Hpre : ∀ c ∈ pre, c.isDigit = false)
    (Hsgn : sgn = [] ∨ sgn = ['+'] ∨ sgn = ['-'])
    (Hm : isMantissaTok m = true)
    (Hbnd : sgn = [] → lastNotSignDot pre (headIsDigit m) = true)
    (Hsuf1 : headNotDigit suf = true)
    (Hsuf2 : '.' ∈ m ∨ headNotDot suf = true) :
    strip_units (String.mk (pre ++ (sgn ++ (m ++ suf)))) = .ok (decValue m) := by
  have hmatch : matchAt (sgn ++ (m ++ suf)) = some (m, matchExpOpt suf) :=
    matchAt_exact Hsgn Hm Hsuf1 Hsuf2
  have hb1 : (pre.getLast? = some '+' ∨ pre.getLast? = some '-') →
      matchMantissa (sgn ++ (m ++ suf)) = none := by
    intro hl
    rcases Hsgn with hs | hs | hs
    · exfalso
      have hb := Hbnd hs
      rcases hl with hch | hch <;> simp [lastNotSignDot, hch] at hb
    · subst hs
      apply matchMantissa_none
      · intro x hx
        simp only [List.singleton_append, List.head?_cons, Option.some.injEq] at hx
        subst hx
        decide
      · intro x hdot _
        simp [List.singleton_append] at hdot
    · subst hs
      apply matchMantissa_none
      · intro x hx
        simp only [List.singleton_append, List.head?_cons, Option.some.injEq] at hx
        subst hx
        decide
      · intro x hdot _
        simp [List.singleton_append] at hdot
  have hb2 : pre.getLast? = some '.' → headNotDigit (sgn ++ (m ++ suf)) = true := by
    intro hl
    rcases Hsgn with hs | hs | hs
    · have hb := Hbnd hs
      subst hs
      simp only [lastNotSignDot, hl] at hb
      have hmhead : headIsDigit m = false := by
        by_contra hcon
        rw [Bool.not_eq_false] at hcon
        rw [hcon] at hb
        simp at hb
      obtain ⟨c0, m', hm0, hc0⟩ := mantissaTok_head Hm
      rcases hc0 with hdig | hdot
      · rw [hm0] at hmhead
        rw [show headIsDigit (c0 :: m') = c0.isDigit from rfl, hdig] at hmhead
        exact absurd hmhead (by simp)
      · subst hdot
        subst hm0
        simp [headNotDigit, List.nil_append, List.cons_append]
    · subst hs
      rw [List.singleton_append]
      exact (by decide : (! Char.isDigit '+') = true)
    · subst hs
      rw [List.singleton_append]
      exact (by decide : (! Char.isDigit '-') = true)
  have hskip := findallAux_skip (sgn ++ (m ++ suf)) pre Hpre hb1 hb2
    ((sgn ++ (m ++ suf)).length)
  have hne : sgn ++ (m ++ suf) ≠ [] := by
    have hm := mantissaTok_ne_nil Hm
    intro h
    rcases List.append_eq_nil.mp h with ⟨_, h2⟩
    rcases List.append_eq_nil.mp h2 with ⟨h3, _⟩
    exact hm h3
  obtain ⟨k, hk⟩ : ∃ k, (sgn ++ (m ++ suf)).length = k + 1 := by
    cases hq : sgn ++ (m ++ suf) with
    | nil => exact absurd hq hne
    | cons a t => exact ⟨t.length, List.length_cons a t⟩
  rw [strip_units]
  have hdata : (String.mk (pre ++ (sgn ++ (m ++ suf)))).data
      = pre ++ (sgn ++ (m ++ suf)) := rfl
  rw [hdata, numberFindall, List.length_append, hskip, hk,
    findallAux_head hmatch]

/-- C1 counterexample: the claim says the sign and the exponent are included
in the returned value ("-2" → -2.0, "1.2e3 m" → 1200.0), but `strip_units`
returns only the mantissa capture: 2.0 and 1.2. -/
theorem strip_units_drops_sign_and_exponent :
    strip_units "-2" = .ok 2 ∧ (2 : ℚ) ≠ -2 ∧
    strip_units "1.2e3 m" = .ok (6 / 5) ∧ ((6 : ℚ) / 5) ≠ 1200 := by
  have h1 : numberFindall "-2".data = [['2']] := by decide
  have h2 : numberFindall "1.2e3 m".data = [['1', '.', '2']] := by decide
  refine ⟨?_, by norm_num, ?_, by norm_num⟩
  · rw [strip_units, h1]
    show Except.ok (decValue ['2']) = Except.ok 2
    rw [decValue_spec ['2'] 2 0 0 (by decide) (by decide) (by decide)]
    norm_num
  · rw [strip_units, h2]
    show Except.ok (decValue ['1', '.', '2']) = Except.ok (6 / 5)
    rw [decValue_spec ['1', '.', '2'] 1 2 1 (by decide) (by decide) (by decide)]
    norm_num

theorem strip_units_first_numeric_witness :
    strip_units (String.mk (['x', ' '] ++ ([] ++ (['3', '4', '.', '5'] ++ [' ', 'k', 't'])))) =
      .ok (decValue ['3', '4', '.', '5']) ∧
    decValue ['3', '4', '.', '5'] = 69 / 2 := by
  constructor
  · exact strip_units_first_numeric ['x', ' '] [] ['3', '4', '.', '5'] [' ', 'k', 't']
      (by decide) (Or.inl rfl) (by decide) (fun _ => by decide) (by decide)
      (Or.inl (by decide))
  · rw [decValue_spec ['3', '4', '.', '5'] 34 5 1 (by decide) (by decide) (by decide)]
    norm_num

theorem segFrom_succ (pgs : Int → ListingPage) (n : Int) (d : Nat) :
    segFrom pgs n (d + 1) =
      scrape_designators (pgs (n + 1)) ++ segFrom pgs (n + 1) d := by
  have hmap : ∀ i ∈ List.range d,
      ((fun (i : Nat) => scrape_designators (pgs (n + 1 + (i : Int)))) ∘ Nat.succ) i
        = (fun (i : Nat) => scrape_designators (pgs (n + 1 + 1 + (i : Int)))) i := by
    intro i _
    simp only [Function.comp_apply]
    have e1 : n + 1 + ((i : Int) + 1) = n + 1 + 1 + (i : Int) := by ring
    push_cast
    rw [e1]
  rw [segFrom, segFrom, List.range_succ_eq_map, List.map_cons, List.map_map,
    List.map_congr_left hmap]
  have h0 : n + 1 + ((0 : Nat) : Int) = n + 1 := by norm_num
  rw [h0]
  rfl

theorem stepsFrom_succ (pgs : Int → ListingPage) (n : Int) (d : Nat) :
    stepsFrom pgs n (d + 1) =
      Step.post (PageEvent.page (n + 1)) (PageState.extract (pgs n)) (pgs (n + 1))
        :: stepsFrom pgs (n + 1) d := by
  have hmap : ∀ i ∈ List.range d,
      ((fun (i : Nat) =>
        Step.post (PageEvent.page (n + 1 + (i : Int)))
          (PageState.extract (pgs (n + (i : Int)))) (pgs (n + 1 + (i : Int)))) ∘
        Nat.succ) i
        = (fun (i : Nat) =>
            Step.post (PageEvent.page (n + 1 + 1 + (i : Int)))
              (PageState.extract (pgs (n + 1 + (i : Int))))
              (pgs (n + 1 + 1 + (i : Int)))) i := by
    intro i _
    simp only [Function.comp_apply]
    have e1 : n + 1 + ((i : Int) + 1) = n + 1 + 1 + (i : Int) := by ring
    have e2 : n + ((i : Int) + 1) = n + 1 + (i : Int) := by ring
    push_cast
    rw [e1, e2]
  rw [stepsFrom, stepsFrom, List.range_succ_eq_map, List.map_cons, List.map_map,
    List.map_congr_left hmap]
  have h0 : n + 1 + ((0 : Nat) : Int) = n + 1 := by norm_num
  have h0' : n + ((0 : Nat) : Int) = n := by norm_num
  rw [h0, h0']

/-- Master lemma for the scripted walk: starting at page `n` with running
bound `M`, the loop visits exactly pages `n+1, …, B`, requesting each page
with the state of the preceding page, and the successive bounds form a
non-decreasing chain. -/
theorem walk_script (env : Env) (pgs : Int → ListingPage) (b : Int → Int)
    (B : Int)
    (Hpost : ∀ (k : Int) (st : PageState), env.post (PageEvent.page k) st = pgs k)
    (Hb : ∀ k : Int, 1 ≤ k → k ≤ B → max_page_no (pgs k) = .ok (b k))
    (Hgrow : ∀ k : Int, 1 ≤ k → k < B → k < b k)
    (Hbound : ∀ k : Int, 1 ≤ k → k ≤ B → b k ≤ B) :
    ∀ (d : Nat) (fuel : Nat) (n M : Int) (acc : List String) (log : List Step)
      (bnds : List Int),
      n = B - (d : Int) → 1 ≤ n → b n ≤ M → M ≤ B → d ≤ fuel →
      ∃ bs : List Int,
        walkLoop env fuel n M (PageState.extract (pgs n)) acc log bnds =
          some (.ok (acc ++ segFrom pgs n d, log ++ stepsFrom pgs n d,
            bnds ++ bs)) ∧
        List.Chain' (· ≤ ·) (M :: bs)
  | 0, fuel, n, M, acc, log, bnds, hn, h1, hbM, hMB, hf => by
    have hstop : ¬ n < M := by
      push_cast at hn
      omega
    refine ⟨[], ?_, List.chain'_singleton M⟩
    rw [walkLoop.eq_def, if_neg hstop]
    simp [segFrom, stepsFrom]
  | d + 1, fuel, n, M, acc, log, bnds, hn, h1, hbM, hMB, hf => by
    have hnB : n < B := by
      push_cast at hn
      omega
    have hgo : n < M := lt_of_lt_of_le (Hgrow n h1 hnB) hbM
    obtain ⟨f', rfl⟩ : ∃ f', fuel = f' + 1 := ⟨fuel - 1, by omega⟩
    have IH := walk_script env pgs b B Hpost Hb Hgrow Hbound d f' (n + 1)
      (max M (b (n + 1))) (acc ++ scrape_designators (pgs (n + 1)))
      (log ++ [Step.post (PageEvent.page (n + 1)) (PageState.extract (pgs n))
        (pgs (n + 1))])
      (bnds ++ [max M (b (n + 1))])
      (by push_cast at hn ⊢; omega)
      (by omega) (le_max_right _ _)
      (max_le hMB (Hbound (n + 1) (by omega) (by omega)))
      (by omega)
    obtain ⟨bs', hw, hch⟩ := IH
    refine ⟨max M (b (n + 1)) :: bs', ?_, ?_⟩
    · rw [walkLoop.eq_def, if_pos hgo]
      simp only [retrieve_page, Hpost, Hb (n + 1) (by omega) (by omega)]
      rw [hw, segFrom_succ, stepsFrom_succ]
      simp [List.append_assoc]
    · rw [List.chain'_cons]
      exact ⟨le_max_left _ _, hch⟩

/-- Shared form of the scripted-walk result, used by the walker theorems. -/
theorem retrieve_designators_walk (env : Env) (pgs : Int → ListingPage)
    (b : Int → Int) (B : Int) (fuel : Nat)
    (HB : 1 ≤ B)
    (Hfront : env.front = pgs 1)
    (Hpost : ∀ (k : Int) (st : PageState), env.post (PageEvent.page k) st = pgs k)
    (Hb : ∀ k : Int, 1 ≤ k → k ≤ B → max_page_no (pgs k) = .ok (b k))
    (Hgrow : ∀ k : Int, 1 ≤ k → k < B → k < b k)
    (Hbound : ∀ k : Int, 1 ≤ k → k ≤ B → b k ≤ B)
    (Hfuel : (B - 1).toNat ≤ fuel) :
    ∃ bs : List Int,
      retrieve_designators env fuel =
        some (.ok
          (((List.range B.toNat).map
              (fun (i : Nat) => scrape_designators (pgs (1 + (i : Int))))).flatten,
           Step.front (pgs 1) :: stepsFrom pgs 1 (B - 1).toNat,
           b 1 :: bs)) ∧
      List.Chain' (· ≤ ·) (b 1 :: bs) := by
  have hd : (((B - 1).toNat : Nat) : Int) = B - 1 := Int.toNat_of_nonneg (by omega)
  obtain ⟨bs, hw, hch⟩ := walk_script env pgs b B Hpost Hb Hgrow Hbound
    (B - 1).toNat fuel 1 (b 1) (scrape_designators (pgs 1))
    [Step.front (pgs 1)] [b 1]
    (by omega) le_rfl le_rfl (Hbound 1 le_rfl HB) Hfuel
  have hseg : scrape_designators (pgs 1) ++ segFrom pgs 1 (B - 1).toNat =
      ((List.range B.toNat).map
        (fun (i : Nat) => scrape_designators (pgs (1 + (i : Int))))).flatten := by
    have hBn : B.toNat = (B - 1).toNat + 1 := by omega
    have hmap : ∀ i ∈ List.range (B - 1).toNat,
        ((fun (i : Nat) => scrape_designators (pgs (1 + (i : Int)))) ∘ Nat.succ) i
          = (fun (i : Nat) => scrape_designators (pgs (1 + 1 + (i : Int)))) i := by
      intro i _
      simp only [Function.comp_apply]
      congr 2
      push_cast
      ring
    rw [hBn, List.range_succ_eq_map, List.map_cons, List.map_map,
      List.map_congr_left hmap]
    have h0 : (1 : Int) + ((0 : Nat) : Int) = 1 := by norm_num
    rw [h0]
    rfl
  refine ⟨bs, ?_, hch⟩
  rw [retrieve_designators]
  simp only [retrieve_front]
  rw [Hfront, Hb 1 le_rfl HB]
  simp only [hw, hseg, List.singleton_append]

theorem threaded_append {l : List Step} {evt : PageEvent} {st : PageState}
    {page : ListingPage}
    (H : Threaded l) (hne : l ≠ [])
    (Hlast : ∀ s, l.getLast? = some s →
      ∃ q, respOf s = some q ∧ st = PageState.extract q) :
    Threaded (l ++ [Step.post evt st page]) := by
  intro i e s' pg hi
  rcases lt_trichotomy (i + 1) l.length with hlt | heq | hgt
  · rw [List.getElem?_append_left hlt] at hi
    obtain ⟨s, hs, hq⟩ := H i e s' pg hi
    exact ⟨s, by rw [List.getElem?_append_left (by omega)]; exact hs, hq⟩
  · rw [List.getElem?_append_right (by omega)] at hi
    rw [heq, Nat.sub_self] at hi
    simp only [List.getElem?_cons_zero, Option.some.injEq] at hi
    obtain ⟨last, hlast⟩ : ∃ last, l.getLast? = some last := by
      cases hq : l.getLast? with
      | none => exact absurd (List.getLast?_eq_none_iff.mp hq) hne
      | some x => exact ⟨x, rfl⟩
    obtain ⟨q, hq1, hq2⟩ := Hlast last hlast
    refine ⟨last, ?_, q, hq1, ?_⟩
    · rw [List.getElem?_append_left (by omega)]
      rw [show i = l.length - 1 by omega]
      rw [← List.getLast?_eq_getElem?]
      exact hlast
    · injection hi with h1 h2 h3
      exact h2 ▸ hq2
  · exfalso
    rw [List.getElem?_append_right (by omega)] at hi
    rw [List.getElem?_eq_none (by simp; omega)] at hi
    exact Option.noConfusion hi

theorem walkLoop_threaded (env : Env) :
    ∀ (fuel : Nat) (n M : Int) (st : PageState) (acc : List String)
      (log : List Step) (bnds : List Int) (ds : List String)
      (steps : List Step) (bs : List Int),
      walkLoop env fuel n M st acc log bnds = some (.ok (ds, steps, bs)) →
      Threaded log → log ≠ [] →
      (∀ s, log.getLast? = some s →
        ∃ q, respOf s = some q ∧ st = PageState.extract q) →
      Threaded steps
  | fuel, n, M, st, acc, log, bnds, ds, steps, bs, hw, hT, hne, hlast => by
    by_cases hlt : n < M
    · cases fuel with
      | zero =>
        rw [walkLoop.eq_def, if_pos hlt] at hw
        exact absurd hw (by simp)
      | succ f =>
        rw [walkLoop.eq_def, if_pos hlt] at hw
        simp only [retrieve_page] at hw
        cases hmp : max_page_no (env.post (PageEvent.page (n + 1)) st) with
        | error e =>
          rw [hmp] at hw
          simp at hw
        | ok m =>
          rw [hmp] at hw
          refine walkLoop_threaded env f (n + 1) (max M m)
            (PageState.extract (env.post (PageEvent.page (n + 1)) st))
            (acc ++ scrape_designators (env.post (PageEvent.page (n + 1)) st))
            (log ++ [Step.post (PageEvent.page (n + 1)) st
              (env.post (PageEvent.page (n + 1)) st)])
            (bnds ++ [max M m]) ds steps bs hw ?_ (by simp) ?_
          · exact threaded_append hT hne hlast
          · intro s hs
            rw [List.getLast?_concat] at hs
            simp only [Option.some.injEq] at hs
            subst hs
            exact ⟨env.post (PageEvent.page (n + 1)) st, rfl, rfl⟩
    · rw [walkLoop.eq_def, if_neg hlt] at hw
      simp only [Option.some.injEq, Except.ok.injEq, Prod.mk.injEq] at hw
      obtain ⟨_, h2, _⟩ := hw
      exact h2 ▸ hT

theorem usedStates_stepsFrom (pgs : Int → ListingPage) (n : Int) :
    ∀ d : Nat, usedStates (stepsFrom pgs n d) =
      (List.range d).map (fun (i : Nat) => PageState.extract (pgs (n + (i : Int))))
  | 0 => rfl
  | d + 1 => by
    have hsplit : stepsFrom pgs n (d + 1) = stepsFrom pgs n d ++
        [Step.post (PageEvent.page (n + 1 + (d : Int)))
          (PageState.extract (pgs (n + (d : Int)))) (pgs (n + 1 + (d : Int)))] := by
      rw [stepsFrom, stepsFrom, List.range_succ, List.map_append]
      rfl
    rw [hsplit, usedStates, List.filterMap_append]
    rw [List.range_succ, List.map_append]
    congr 1
    exact usedStates_stepsFrom pgs n d

/-- C4: (1) for any environment, any successful walker run is
state-threaded - every postback uses exactly the `PageState` extracted from
the immediately preceding response, each fresh state replacing the previous
one; (2) in the scripted setting, the used states are exactly the states of
pages `1, …, B-1` in order, and when those extracted states are pairwise
distinct no `PageState` value is used for two postbacks. -/
theorem walker_state_threading :
    (∀ (env : Env) (fuel : Nat) (ds : List String) (steps : List Step)
       (bs : List Int),
      retrieve_designators env fuel = some (.ok (ds, steps, bs)) →
      Threaded steps) ∧
    (∀ (env : Env) (pgs : Int → ListingPage) (b : Int → Int) (B : Int)
       (fuel : Nat),
      1 ≤ B → env.front = pgs 1 →
      (∀ (k : Int) (st : PageState), env.post (PageEvent.page k) st = pgs k) →
      (∀ k : Int, 1 ≤ k → k ≤ B → max_page_no (pgs k) = .ok (b k)) →
      (∀ k : Int, 1 ≤ k → k < B → k < b k) →
      (∀ k : Int, 1 ≤ k → k ≤ B → b k ≤ B) →
      (B - 1).toNat ≤ fuel →
      (∀ i j : Nat, i < (B - 1).toNat → j < (B - 1).toNat → i ≠ j →
        PageState.extract (pgs (1 + (i : Int))) ≠
          PageState.extract (pgs (1 + (j : Int)))) →
      ∃ ds steps bs,
        retrieve_designators env fuel = some (.ok (ds, steps, bs)) ∧
        usedStates steps = (List.range (B - 1).toNat).map
          (fun (i : Nat) => PageState.extract (pgs (1 + (i : Int)))) ∧
        (usedStates steps).Pairwise (· ≠ ·)) := by
  constructor
  · intro env fuel ds steps bs hw
    rw [retrieve_designators] at hw
    simp only [retrieve_front] at hw
    cases hmp : max_page_no env.front with
    | error e =>
      rw [hmp] at hw
      simp at hw
    | ok m =>
      rw [hmp] at hw
      refine walkLoop_threaded env fuel 1 m (PageState.extract env.front)
        (scrape_designators env.front) [Step.front env.front] [m] ds steps bs hw
        ?_ (by simp) ?_
      · intro i e s' pg hi
        rw [List.getElem?_eq_none (by simp)] at hi
        exact Option.noConfusion hi
      · intro s hs
        simp only [List.getLast?_singleton, Option.some.injEq] at hs
        subst hs
        exact ⟨env.front, rfl, rfl⟩
  · intro env pgs b B fuel HB Hfront Hpost Hb Hgrow Hbound Hfuel Hdist
    obtain ⟨bs, hw, _⟩ := retrieve_designators_walk env pgs b B fuel HB Hfront
      Hpost Hb Hgrow Hbound Hfuel
    refine ⟨_, _, _, hw, ?_, ?_⟩
    · show usedStates (Step.front (pgs 1) :: stepsFrom pgs 1 (B - 1).toNat) = _
      rw [show usedStates (Step.front (pgs 1) :: stepsFrom pgs 1 (B - 1).toNat)
          = usedStates (stepsFrom pgs 1 (B - 1).toNat) from rfl]
      exact usedStates_stepsFrom pgs 1 (B - 1).toNat
    · rw [show usedStates (Step.front (pgs 1) :: stepsFrom pgs 1 (B - 1).toNat)
          = usedStates (stepsFrom pgs 1 (B - 1).toNat) from rfl]
      rw [usedStates_stepsFrom pgs 1 (B - 1).toNat]
      rw [List.pairwise_map]
      rw [List.pairwise_iff_getElem]
      intro i j hi hj hij
      simp only [List.length_range] at hi hj
      simp only [List.getElem_range]
      exact Hdist i j hi hj (by omega)

/-- C3: driven against a scripted family of listing pages whose reported
bounds keep the walk going until the final bound `B` is reached (each visited
page before `B` reports a bound beyond it, all bounds are at most `B`), the
walker visits pages `1, …, B` exactly once in increasing order - requesting
page `n > 1` via `PageEvent.page n` with the preceding page's state - returns
the concatenation of every page's scraped designators in visiting order
without deduplication, and the successive values of the running page bound
form a monotonically non-decreasing chain. -/
theorem retrieve_designators_script (env : Env) (pgs : Int → ListingPage)
    (b : Int → Int) (B : Int) (fuel : Nat)
    (HB : 1 ≤ B)
    (Hfront : env.front = pgs 1)
    (Hpost : ∀ (k : Int) (st : PageState), env.post (PageEvent.page k) st = pgs k)
    (Hb : ∀ k : Int, 1 ≤ k → k ≤ B → max_page_no (pgs k) = .ok (b k))
    (Hgrow : ∀ k : Int, 1 ≤ k → k < B → k < b k)
    (Hbound : ∀ k : Int, 1 ≤ k → k ≤ B → b k ≤ B)
    (Hfuel : (B - 1).toNat ≤ fuel) :
    ∃ bs : List Int,
      retrieve_designators env fuel =
        some (.ok
          (((List.range B.toNat).map
              (fun (i : Nat) => scrape_designators (pgs (1 + (i : Int))))).flatten,
           Step.front (pgs 1) :: stepsFrom pgs 1 (B - 1).toNat,
           b 1 :: bs)) ∧
      List.Chain' (· ≤ ·) (b 1 :: bs) :=
  retrieve_designators_walk env pgs b B fuel HB Hfront Hpost Hb Hgrow Hbound Hfuel

theorem retrieve_designators_script_witness :
    ∃ bs : List Int,
      retrieve_designators envW 1 =
        some (.ok
          (((List.range (2 : Int).toNat).map
              (fun (i : Nat) => scrape_designators (pgsW (1 + (i : Int))))).flatten,
           Step.front (pgsW 1) :: stepsFrom pgsW 1 ((2 : Int) - 1).toNat,
           bW 1 :: bs)) ∧
      List.Chain' (· ≤ ·) (bW 1 :: bs) :=
  retrieve_designators_script envW pgsW bW 2 1 (by decide) rfl (fun _ _ => rfl)
    (fun _ _ _ => show max_page_no pgW1 = Except.ok 2 by decide)
    (fun _ _ h => h) (fun _ _ _ => le_refl 2) (by decide)

theorem walker_state_threading_witness :
    Threaded [Step.front pgW1,
      Step.post (PageEvent.page 2) (PageState.extract pgW1) pgW1] :=
  walker_state_threading.1 envW 1 ["A1", "A1"]
    [Step.front pgW1, Step.post (PageEvent.page 2) (PageState.extract pgW1) pgW1]
    [2, 2] (by decide)
